import Mathlib

/-!
Verification of the `blockchain-server` repository core (`src/blockchain.js`).

The repository source holds two revisions of the blockchain module: the
original one (called V1 below) and a revision whose header comment marks it
as the fixed signature-verification version (called V2 below).  Shared code
(hashing, blocks, mining, balances, chain validation) is byte-for-byte
identical between the two revisions and is embedded once, generically in the
signature payload type; code that differs (transaction signing/validation,
`addTransaction`, the difficulty constant) is embedded separately per
revision.

Machine model:
* JavaScript strings are Lean `String`s; every string the program feeds to
  a hash is ASCII, so UTF-8 bytes coincide with character codes.
* Node `Buffer`s are byte lists (`List Nat`, entries < 256); buffers that
  the program passes around hex-encoded are kept as lowercase hex strings.
* JavaScript numbers that the program uses (amounts, timestamps, indices,
  nonces) are integer-valued; they are modelled as `Int`/`Nat`, whose
  decimal rendering agrees with JavaScript for integers.
* The JavaScript `+` operator (numeric addition vs string concatenation,
  `null`/`undefined` coercion) is modelled explicitly by `JsVal`/`jsAdd`,
  because `calculateHash` relies on it.
* SHA-256 (`crypto.createHash('sha256')`) is embedded concretely and
  executably below.
* secp256k1 is an external native library; it is modelled as an explicit
  parameter structure `Secp` (sign, recover, verify, key derivation), and
  theorems that need its cryptographic behaviour take that behaviour as
  hypotheses at the exact points used.
-/

set_option maxRecDepth 100000

/-! ## SHA-256, executably (FIPS 180-4), over byte lists -/

/-- Truncation to 32 bits. -/
def m32 (x : Nat) : Nat := x % 4294967296

/-- 32-bit right rotation (input assumed < 2^32). -/
def rotr (n x : Nat) : Nat := x / 2 ^ n + x % 2 ^ n * 2 ^ (32 - n)

/-- Logical right shift. -/
def shr (n x : Nat) : Nat := x / 2 ^ n

def bsig0 (x : Nat) : Nat := rotr 2 x ^^^ rotr 13 x ^^^ rotr 22 x

def bsig1 (x : Nat) : Nat := rotr 6 x ^^^ rotr 11 x ^^^ rotr 25 x

def ssig0 (x : Nat) : Nat := rotr 7 x ^^^ rotr 18 x ^^^ shr 3 x

def ssig1 (x : Nat) : Nat := rotr 17 x ^^^ rotr 19 x ^^^ shr 10 x

def chFun (x y z : Nat) : Nat := x &&& y ^^^ (x ^^^ 4294967295) &&& z

def majFun (x y z : Nat) : Nat := x &&& y ^^^ x &&& z ^^^ y &&& z

def K256 : List Nat :=
  [1116352408, 1899447441, 3049323471, 3921009573, 961987163,
   1508970993, 2453635748, 2870763221, 3624381080, 310598401,
   607225278, 1426881987, 1925078388, 2162078206, 2614888103,
   3248222580, 3835390401, 4022224774, 264347078, 604807628,
   770255983, 1249150122, 1555081692, 1996064986, 2554220882,
   2821834349, 2952996808, 3210313671, 3336571891, 3584528711,
   113926993, 338241895, 666307205, 773529912, 1294757372,
   1396182291, 1695183700, 1986661051, 2177026350, 2456956037,
   2730485921, 2820302411, 3259730800, 3345764771, 3516065817,
   3600352804, 4094571909, 275423344, 430227734, 506948616,
   659060556, 883997877, 958139571, 1322822218, 1537002063,
   1747873779, 1955562222, 2024104815, 2227730452, 2361852424,
   2428436474, 2756734187, 3204031479, 3329325298]

def H0256 : List Nat :=
  [1779033703, 3144134277, 1013904242, 2773480762,
   1359893119, 2600822924, 528734635, 1541459225]

/-- One SHA-256 round on the eight-word working state. -/
def roundStep (st : List Nat) (kw : Nat × Nat) : List Nat :=
  match st with
  | [a, b, c, d, e, f, g, h] =>
    let t1 := m32 (h + bsig1 e + chFun e f g + kw.1 + kw.2)
    let t2 := m32 (bsig0 a + majFun a b c)
    [m32 (t1 + t2), a, b, c, m32 (d + t1), e, f, g]
  | l => l

/-- Message-schedule extension; the word list is kept most-recent-first. -/
def msgExtend : Nat → List Nat → List Nat
  | 0, rw => rw
  | n + 1, rw =>
    msgExtend n
      (m32 (ssig1 (rw.getD 1 0) + rw.getD 6 0 + ssig0 (rw.getD 14 0) +
        rw.getD 15 0) :: rw)

/-- SHA-256 compression of one 16-word block into the running hash. -/
def compressBlock (h : List Nat) (blockWords : List Nat) : List Nat :=
  let w := (msgExtend 48 blockWords.reverse).reverse
  let st := (K256.zip w).foldl roundStep h
  List.zipWith (fun a b => m32 (a + b)) h st

/-- Big-endian 8-byte rendering of a bit length. -/
def lenBytes8 (v : Nat) : List Nat :=
  [v / 72057594037927936 % 256, v / 281474976710656 % 256,
   v / 1099511627776 % 256, v / 4294967296 % 256,
   v / 16777216 % 256, v / 65536 % 256, v / 256 % 256, v % 256]

/-- SHA-256 padding: 0x80, zeros to 56 mod 64, 8-byte big-endian bit length. -/
def sha256pad (msg : List Nat) : List Nat :=
  let r := msg.length % 64
  let k := if r < 56 then 55 - r else 119 - r
  msg ++ 128 :: List.replicate k 0 ++ lenBytes8 (8 * msg.length)

/-- Big-endian grouping of bytes into 32-bit words. -/
def toWords4 : List Nat → List Nat
  | b0 :: b1 :: b2 :: b3 :: r =>
    (b0 * 16777216 + b1 * 65536 + b2 * 256 + b3) :: toWords4 r
  | _ => []

/-- Grouping of the padded word stream into 16-word blocks. -/
def chunk16W : List Nat → List (List Nat)
  | w0 :: w1 :: w2 :: w3 :: w4 :: w5 :: w6 :: w7 ::
    w8 :: w9 :: w10 :: w11 :: w12 :: w13 :: w14 :: w15 :: r =>
    [w0, w1, w2, w3, w4, w5, w6, w7, w8, w9, w10, w11, w12, w13, w14, w15] ::
      chunk16W r
  | _ => []

/-- SHA-256 of a byte list, as the 32-byte digest. -/
def sha256 (msg : List Nat) : List Nat :=
  let blocks := chunk16W (toWords4 (sha256pad msg))
  let hfin := blocks.foldl compressBlock H0256
  hfin.flatMap (fun w => [w / 16777216 % 256, w / 65536 % 256, w / 256 % 256, w % 256])

/-- The sixteen lowercase hex digit characters, by character code. -/
def hexCharList : List Char :=
  (List.range 16).map (fun n => Char.ofNat (if n < 10 then 48 + n else 87 + n))

/-- Lowercase hex encoding of a byte list (Node `buf.toString('hex')`). -/
def toHexString (bs : List Nat) : String :=
  String.mk (bs.flatMap (fun b => [hexCharList.getD (b / 16 % 16) '0', hexCharList.getD (b % 16) '0']))

/-- Bytes of an ASCII string (UTF-8 agrees with char codes on ASCII). -/
def stringBytes (s : String) : List Nat := s.data.map Char.toNat

/-- `crypto.createHash('sha256').update(s).digest('hex')` for ASCII `s`. -/
def sha256hex (s : String) : String := toHexString (sha256 (stringBytes s))

/-! ## JavaScript value model for the `+`-based serializations -/

/-- The JavaScript values the hashed expressions can produce. -/
inductive JsVal where
  | str (s : String)
  | num (n : Int)
  | null
  | undefined
  | nan
deriving DecidableEq

/-- JavaScript string coercion of the values above. -/
def jsToString : JsVal → String
  | .str s => s
  | .num n => toString n
  | .null => "null"
  | .undefined => "undefined"
  | .nan => "NaN"

/-- JavaScript `+`: string concatenation when either side is a string,
numeric addition otherwise (`null` coerces to 0, `undefined` to NaN). -/
def jsAdd : JsVal → JsVal → JsVal
  | .str s, v => .str (s ++ jsToString v)
  | v, .str s => .str (jsToString v ++ s)
  | .num a, .num b => .num (a + b)
  | .num a, .null => .num a
  | .null, .num b => .num b
  | .null, .null => .num 0
  | _, _ => .nan

/-- A nullable address field (`null` is the coinbase marker). -/
def jsOfAddr : Option String → JsVal
  | none => .null
  | some s => .str s

/-- Hex digit value, accepting both cases (Node `Buffer.from(·,'hex')`). -/
def hexVal (c : Char) : Option Nat :=
  if '0' ≤ c ∧ c ≤ '9' then some (c.toNat - 48)
  else if 'a' ≤ c ∧ c ≤ 'f' then some (c.toNat - 87)
  else if 'A' ≤ c ∧ c ≤ 'F' then some (c.toNat - 55)
  else none

/-- Hex decoding; like Node, it stops at the first invalid pair. -/
def hexPairs : List Char → List Nat
  | c1 :: c2 :: r =>
    match hexVal c1, hexVal c2 with
    | some a, some b => (16 * a + b) :: hexPairs r
    | _, _ => []
  | _ => []

/-- `Buffer.from(s, 'hex')` as a byte list. -/
def hexDecode (s : String) : List Nat := hexPairs s.data

/-- Hex rendering of one byte (`Buffer.from([n])` truncates mod 256). -/
def byteToHexPair (n : Nat) : String :=
  String.mk [hexCharList.getD (n % 256 / 16) '0', hexCharList.getD (n % 16) '0']

/-! ## Errors thrown by the core (§7 taxonomy of the spec) -/

inductive JsError where
  | missingKey
  | invalidKey
  | missingAddress
  | invalidAmount
  | invalidSignature
  | insufficientBalance
  | missingSignature
deriving DecidableEq

/-! ## The secp256k1 native library as an explicit parameter

Field meanings, in library argument order: `ecdsaSign msgHash privateKey`
returns (64-byte signature, recovery id); `ecdsaRecover signature recid
msgHash` returns the public key or throws; `ecdsaVerify signature msgHash
publicKey` returns a boolean or throws.  All buffers are byte lists. -/

structure Secp where
  privateKeyVerify : List Nat → Bool
  publicKeyCreate : List Nat → List Nat
  ecdsaSign : List Nat → List Nat → List Nat × Nat
  ecdsaRecover : List Nat → Nat → List Nat → Except String (List Nat)
  ecdsaVerify : List Nat → List Nat → List Nat → Except String Bool

/-! ## Transactions -/

/-- `Transaction` of both revisions, generic in the stored signature shape:
revision V1 stores a hex string, revision V2 a `{signature, recovery}`
object.  `fromAddress`/`toAddress` are nullable (`null` marks coinbase). -/
structure Transaction (σ : Type) where
  fromAddress : Option String
  toAddress : Option String
  amount : Int
  timestamp : Int
  signature : Option σ
deriving DecidableEq

/-- `Transaction.calculateHash`: SHA-256 of
`this.fromAddress + this.toAddress + this.amount + this.timestamp`,
with JavaScript `+` semantics (identical in both revisions). -/
def Transaction.calculateHash (tx : Transaction σ) : String :=
  sha256hex (jsToString (jsAdd (jsAdd (jsAdd (jsOfAddr tx.fromAddress)
    (jsOfAddr tx.toAddress)) (.num tx.amount)) (.num tx.timestamp)))

/-- V2 signature objects: `{ signature: <hex>, recovery: <recid> }`. -/
structure SigRec where
  signature : String
  recovery : Nat
deriving DecidableEq

/-- `signTransaction` of revision V1: signs the transaction hash and stores
`hex(signature ++ [recid])`.  The thrown `MissingKey` models
`'未提供签名密钥'`. -/
def Transaction.signTransactionV1 (S : Secp) (signingKey : String)
    (tx : Transaction String) : Except JsError (Transaction String) :=
  if signingKey = "" then .error .missingKey
  else
    let msgHash := hexDecode tx.calculateHash
    let privateKey := hexDecode signingKey
    let sr := S.ecdsaSign msgHash privateKey
    .ok { tx with signature := some (toHexString (sr.1 ++ [sr.2 % 256])) }

/-- `signTransaction` of revision V2: additionally validates the key
(32 bytes, curve-valid) before signing, storing `{signature, recovery}`. -/
def Transaction.signTransactionV2 (S : Secp) (signingKey : String)
    (tx : Transaction SigRec) : Except JsError (Transaction SigRec) :=
  if signingKey = "" then .error .missingKey
  else
    let privateKeyBuffer := hexDecode signingKey
    if privateKeyBuffer.length ≠ 32 then .error .invalidKey
    else if ¬ S.privateKeyVerify privateKeyBuffer then .error .invalidKey
    else
      let msgHash := hexDecode tx.calculateHash
      let sigObj := S.ecdsaSign msgHash privateKeyBuffer
      .ok { tx with signature := some ⟨toHexString sigObj.1, sigObj.2⟩ }

/-- `isValid` of revision V1.  Coinbase is unconditionally valid; a missing
or empty signature THROWS (`'未找到交易签名'`); otherwise it verifies the
sliced 64-byte signature against `Buffer.from(this.fromAddress, 'hex')` used
directly as the public key (the stored recovery byte is read but unused),
and the catch block turns any library exception into `false`. -/
def Transaction.isValidV1 (S : Secp) (tx : Transaction String) :
    Except JsError Bool :=
  match tx.fromAddress with
  | none => .ok true
  | some addr =>
    match tx.signature with
    | none => .error .missingSignature
    | some s =>
      if s = "" then .error .missingSignature
      else
        let publicKey := hexDecode addr
        let msgHash := hexDecode tx.calculateHash
        let signature := (hexDecode s).take 64
        match S.ecdsaVerify signature msgHash publicKey with
        | .ok b => .ok b
        | .error _ => .ok false

/-- `isValid` of revision V2.  Coinbase is unconditionally valid; a missing
(or empty) signature logs and returns `false`; otherwise the public key is
recovered from (signature, recovery id, hash), an address is derived from it
(SHA-256 of the key bytes), and the result requires address match plus
signature verification; the catch block turns any exception into `false`. -/
def Transaction.isValidV2 (S : Secp) (tx : Transaction SigRec) : Bool :=
  match tx.fromAddress with
  | none => true
  | some addr =>
    match tx.signature with
    | none => false
    | some s =>
      if s.signature = "" then false
      else
        let msgHash := hexDecode tx.calculateHash
        let signatureBuffer := hexDecode s.signature
        match S.ecdsaRecover signatureBuffer s.recovery msgHash with
        | .error _ => false
        | .ok recoveredPubKey =>
          let recoveredAddress := toHexString (sha256 recoveredPubKey)
          if recoveredAddress ≠ addr then false
          else
            match S.ecdsaVerify signatureBuffer msgHash recoveredPubKey with
            | .ok b => b
            | .error _ => false

/-! ## JSON serialization (`JSON.stringify(this.transactions)`)

`JSON.stringify` renders object keys in property-insertion order, which is
the constructor assignment order of `Transaction`.  The strings the program
stores (hex digests, hex signatures, caller-supplied addresses in this
development) contain no characters that JSON escapes. -/

def jsonString (s : String) : String := "\"" ++ s ++ "\""

def jsonOfAddr : Option String → String
  | none => "null"
  | some s => jsonString s

/-- Revision V1 stores the signature as a hex string. -/
def jsonSigV1 (s : String) : String := jsonString s

/-- Revision V2 stores the signature as `{signature, recovery}`. -/
def jsonSigV2 (s : SigRec) : String :=
  "\x7b\"signature\":" ++ jsonString s.signature ++ ",\"recovery\":" ++
    toString s.recovery ++ "\x7d"

def jsonTx (jsonSig : σ → String) (tx : Transaction σ) : String :=
  "\x7b\"fromAddress\":" ++ jsonOfAddr tx.fromAddress ++
  ",\"toAddress\":" ++ jsonOfAddr tx.toAddress ++
  ",\"amount\":" ++ toString tx.amount ++
  ",\"timestamp\":" ++ toString tx.timestamp ++
  ",\"signature\":" ++ (match tx.signature with
    | none => "null"
    | some s => jsonSig s) ++ "\x7d"

def jsonTxList (jsonSig : σ → String) (l : List (Transaction σ)) : String :=
  "[" ++ String.intercalate "," (l.map (jsonTx jsonSig)) ++ "]"

/-! ## Blocks -/

/-- `Block` (identical in both revisions). -/
structure Block (σ : Type) where
  index : Nat
  timestamp : Int
  transactions : List (Transaction σ)
  previousHash : String
  hash : String
  nonce : Nat
deriving DecidableEq

/-- `Block.calculateHash`: SHA-256 of
`this.index + this.timestamp + JSON.stringify(this.transactions) +
this.previousHash + this.nonce` with JavaScript `+` (so `index + timestamp`
is NUMERIC addition before the JSON string forces concatenation). -/
def Block.calculateHash (jsonSig : σ → String) (b : Block σ) : String :=
  sha256hex (jsToString (jsAdd (jsAdd (jsAdd (jsAdd (.num b.index)
    (.num b.timestamp)) (.str (jsonTxList jsonSig b.transactions)))
    (.str b.previousHash)) (.num b.nonce)))

/-- The `Block` constructor.  Faithful to the source order of assignments:
`this.hash = this.calculateHash()` runs BEFORE `this.nonce = 0`, so the hash
stored at construction serializes the still-undefined nonce as the string
`"undefined"`, not as `0`. -/
def Block.new (jsonSig : σ → String) (index : Nat) (timestamp : Int)
    (transactions : List (Transaction σ)) (previousHash : String) : Block σ :=
  { index := index, timestamp := timestamp, transactions := transactions,
    previousHash := previousHash,
    hash := sha256hex (jsToString (jsAdd (jsAdd (jsAdd (jsAdd (.num index)
      (.num timestamp)) (.str (jsonTxList jsonSig transactions)))
      (.str previousHash)) .undefined)),
    nonce := 0 }

/-- `Array(difficulty + 1).join('0')`: a string of `difficulty` zeros. -/
def zeroTarget (difficulty : Nat) : String :=
  String.mk (List.replicate difficulty '0')

/-- One iteration of the mining loop body: `this.nonce++;
this.hash = this.calculateHash();`. -/
def stepBlock (jsonSig : σ → String) (b : Block σ) : Block σ :=
  let b1 := { b with nonce := b.nonce + 1 }
  { b1 with hash := Block.calculateHash jsonSig b1 }

/-- `Block.mineBlock(difficulty)`: repeat the loop body while
`this.hash.substring(0, difficulty) !== Array(difficulty + 1).join('0')`.
The source loop is unbounded; `fuel` bounds the embedding, and `none` means
the search did not terminate within `fuel` iterations. -/
def Block.mineBlock (jsonSig : σ → String) (difficulty : Nat) :
    Nat → Block σ → Option (Block σ)
  | 0, b =>
    if b.hash.take difficulty = zeroTarget difficulty then some b else none
  | fuel + 1, b =>
    if b.hash.take difficulty = zeroTarget difficulty then some b
    else Block.mineBlock jsonSig difficulty fuel (stepBlock jsonSig b)

/-! ## The blockchain -/

/-- `Blockchain` state (chain, difficulty, pending queue, reward). -/
structure Blockchain (σ : Type) where
  chain : List (Block σ)
  difficulty : Nat
  pendingTransactions : List (Transaction σ)
  miningReward : Int
deriving DecidableEq

/-- `createGenesisBlock()`: `new Block(0, Date.now(), [], '0')`; the call
time `Date.now()` is an explicit parameter. -/
def createGenesisBlock (jsonSig : σ → String) (now : Int) : Block σ :=
  Block.new jsonSig 0 now [] "0"

/-- The `Blockchain` constructor; revision V1 sets difficulty 3 and V2 sets
difficulty 2, so the difficulty is a parameter here. -/
def Blockchain.new (jsonSig : σ → String) (difficulty : Nat) (now : Int) :
    Blockchain σ :=
  { chain := [createGenesisBlock jsonSig now], difficulty := difficulty,
    pendingTransactions := [], miningReward := 100 }

/-- A fresh revision-V1 ledger (difficulty 3). -/
def freshV1 (now : Int) : Blockchain String := Blockchain.new jsonSigV1 3 now

/-- A fresh revision-V2 ledger (difficulty 2). -/
def freshV2 (now : Int) : Blockchain SigRec := Blockchain.new jsonSigV2 2 now

/-- `getLatestBlock()`: `this.chain[this.chain.length - 1]`.  The chain is
never empty in any constructed state; the default below models the
JavaScript `undefined` that an out-of-range index would give. -/
def Blockchain.getLatestBlock (c : Blockchain σ) : Block σ :=
  c.chain.getLastD ⟨0, 0, [], "", "", 0⟩

/-- `minePendingTransactions(miningRewardAddress)` (identical in both
revisions): push the coinbase `Transaction(null, addr, reward)` onto the
queue, build a block over the whole queue on top of the tip, mine it, append
it, clear the queue, and return the block.  The two `Date.now()` calls (in
the `Transaction` constructor and the `Block` constructor) are the explicit
parameters `txNow` and `blockNow`; `none` propagates a mining search that
did not finish within `fuel`. -/
def Blockchain.minePendingTransactions (jsonSig : σ → String) (fuel : Nat)
    (txNow blockNow : Int) (miningRewardAddress : Option String)
    (c : Blockchain σ) : Option (Block σ × Blockchain σ) :=
  let rewardTx : Transaction σ :=
    ⟨none, miningRewardAddress, c.miningReward, txNow, none⟩
  let pending := c.pendingTransactions ++ [rewardTx]
  let block := Block.new jsonSig c.chain.length blockNow pending
    c.getLatestBlock.hash
  match Block.mineBlock jsonSig c.difficulty fuel block with
  | none => none
  | some b =>
    some (b, { c with chain := c.chain ++ [b], pendingTransactions := [] })

/-- `getBalanceOfAddress(address)` (identical in both revisions): a full
scan; each transaction whose `fromAddress` equals the queried value debits
its amount, each one whose `toAddress` equals it credits its amount.  The
queried value is a JavaScript value compared with `===`, so it may be the
coinbase sentinel `null`. -/
def Blockchain.getBalanceOfAddress (c : Blockchain σ) (address : Option String) :
    Int :=
  c.chain.foldl (fun balance block =>
    block.transactions.foldl (fun balance trans =>
      let balance := if trans.fromAddress = address then balance - trans.amount
        else balance
      if trans.toAddress = address then balance + trans.amount else balance)
      balance) 0

/-- The transaction loop inside `isChainValid`: for each transaction,
`if (!tx.isValid() && tx.fromAddress !== null) return false` — the
`isValid` call runs first and, in revision V1, its throw propagates. -/
def txCheckLoop (valid : Transaction σ → Except JsError Bool) :
    List (Transaction σ) → Except JsError Bool
  | [] => .ok true
  | tx :: rest =>
    match valid tx with
    | .error e => .error e
    | .ok v =>
      if ¬ v ∧ tx.fromAddress ≠ none then .ok false
      else txCheckLoop valid rest

/-- The block loop inside `isChainValid`, from index 1 upward, carrying the
previous block: recompute and compare the stored hash, compare the link to
the predecessor's stored hash, then validate the contained transactions. -/
def chainCheckLoop (jsonSig : σ → String)
    (valid : Transaction σ → Except JsError Bool) :
    Block σ → List (Block σ) → Except JsError Bool
  | _, [] => .ok true
  | previousBlock, currentBlock :: rest =>
    if currentBlock.hash ≠ Block.calculateHash jsonSig currentBlock then
      .ok false
    else if currentBlock.previousHash ≠ previousBlock.hash then .ok false
    else
      match txCheckLoop valid currentBlock.transactions with
      | .error e => .error e
      | .ok ok =>
        if ok then chainCheckLoop jsonSig valid currentBlock rest
        else .ok false

/-- `isChainValid()` (identical in both revisions up to the `isValid`
callee, which is passed in): true when no mismatch is found. -/
def Blockchain.isChainValid (jsonSig : σ → String)
    (valid : Transaction σ → Except JsError Bool) (c : Blockchain σ) :
    Except JsError Bool :=
  match c.chain with
  | [] => .ok true
  | genesis :: rest => chainCheckLoop jsonSig valid genesis rest

/-- JavaScript truthiness test of `!addr` for a nullable string:
`null` and the empty string are falsy. -/
def falsyAddr : Option String → Bool
  | none => true
  | some "" => true
  | some _ => false

/-- `addTransaction` of revision V1: address-presence check, signature
check (whose V1 `isValid` throw propagates uncaught), balance check, then
push.  The pair returned is (thrown error if any, resulting state); every
throw happens before the push, so the state is unchanged on error. -/
def Blockchain.addTransactionV1 (S : Secp) (c : Blockchain String)
    (transaction : Transaction String) :
    Option JsError × Blockchain String :=
  if falsyAddr transaction.fromAddress ∨ falsyAddr transaction.toAddress then
    (some .missingAddress, c)
  else
    match Transaction.isValidV1 S transaction with
    | .error e => (some e, c)
    | .ok v =>
      if ¬ v ∧ transaction.fromAddress ≠ none then (some .invalidSignature, c)
      else if transaction.fromAddress ≠ none ∧
          c.getBalanceOfAddress transaction.fromAddress < transaction.amount then
        (some .insufficientBalance, c)
      else
        (none, { c with
          pendingTransactions := c.pendingTransactions ++ [transaction] })

/-- `addTransaction` of revision V2: address-presence check, amount check
(`typeof amount !== 'number' || amount <= 0`; the typeof arm cannot fire in
this model since amounts are numbers), then — for a non-null sender —
signature and balance checks, then push. -/
def Blockchain.addTransactionV2 (S : Secp) (c : Blockchain SigRec)
    (transaction : Transaction SigRec) :
    Option JsError × Blockchain SigRec :=
  if falsyAddr transaction.fromAddress ∨ falsyAddr transaction.toAddress then
    (some .missingAddress, c)
  else if transaction.amount ≤ 0 then (some .invalidAmount, c)
  else if transaction.fromAddress ≠ none then
    if ¬ Transaction.isValidV2 S transaction then (some .invalidSignature, c)
    else if c.getBalanceOfAddress transaction.fromAddress <
        transaction.amount then
      (some .insufficientBalance, c)
    else
      (none, { c with
        pendingTransactions := c.pendingTransactions ++ [transaction] })
  else
    (none, { c with
      pendingTransactions := c.pendingTransactions ++ [transaction] })

/-! ## Wallet -/

/-- The result shape of `Wallet.generate()` / `Wallet.fromPrivateKey()`. -/
structure WalletData where
  privateKey : String
  publicKey : String
  address : String
deriving DecidableEq

/-- `Wallet.fromPrivateKey(privateKeyHex)` (revision V2 adds the length
check to V1's curve check; both derive `publicKey = publicKeyCreate(priv)`
and `address = sha256(publicKeyBytes) as hex`, exactly as `generate()` does
for its random draw). -/
def Wallet.fromPrivateKey (S : Secp) (privateKeyHex : String) :
    Except JsError WalletData :=
  let privateKey := hexDecode privateKeyHex
  if privateKey.length ≠ 32 then .error .invalidKey
  else if ¬ S.privateKeyVerify privateKey then .error .invalidKey
  else
    let publicKey := S.publicKeyCreate privateKey
    .ok { privateKey := privateKeyHex, publicKey := toHexString publicKey,
          address := toHexString (sha256 publicKey) }

/-! ## A concrete secp256k1 stand-in

`toySecp` is a concrete instance of the `Secp` interface used to evaluate
the program on explicit inputs: the "signature" of a message under private
key `k` is `k ++ k` (64 bytes) with recovery id 0, the "public key" of `k`
is `2 :: k` (33 bytes, like a compressed point), recovery returns the public
key embedded in the signature, and verification checks that the presented
public key is the one embedded in the signature.  It satisfies the
sign/recover/verify round-trip laws that the genuine library provides. -/
def toySecp : Secp :=
  { privateKeyVerify := fun k => k.length == 32,
    publicKeyCreate := fun k => 2 :: k,
    ecdsaSign := fun _ k => (k ++ k, 0),
    ecdsaRecover := fun sig _ _ => .ok (2 :: sig.take 32),
    ecdsaVerify := fun sig _ pk => .ok (pk == 2 :: sig.take 32) }

deriving instance DecidableEq for Except

/-! ## Reachable ledger states (revision V1)

A state is reachable when it arises from the `Blockchain` constructor by any
sequence of `addTransaction` calls (with arbitrary transactions; a throw
leaves the state unchanged and is recorded in the first component) and
`minePendingTransactions` calls (with arbitrary reward address, `Date.now()`
values, and enough fuel for the proof-of-work search to finish). -/

inductive ReachableV1 (S : Secp) : Blockchain String → Prop where
  | fresh (now : Int) : ReachableV1 S (freshV1 now)
  | add (c : Blockchain String) (tx : Transaction String) (r : Option JsError)
      (c' : Blockchain String) : ReachableV1 S c →
      Blockchain.addTransactionV1 S c tx = (r, c') → ReachableV1 S c'
  | mine (c : Blockchain String) (fuel : Nat) (txNow blockNow : Int)
      (addr : Option String) (b : Block String) (c' : Blockchain String) :
      ReachableV1 S c →
      Blockchain.minePendingTransactions jsonSigV1 fuel txNow blockNow addr c
        = some (b, c') → ReachableV1 S c'

/-- Reachability as above, but each mining step is additionally required to
have performed at least one nonce increment (final nonce ≠ 0) — i.e. the
hash stored by the `Block` constructor (which serializes the nonce as
`"undefined"`) did not already meet the difficulty target. -/
inductive ReachableStrictV1 (S : Secp) : Blockchain String → Prop where
  | fresh (now : Int) : ReachableStrictV1 S (freshV1 now)
  | add (c : Blockchain String) (tx : Transaction String) (r : Option JsError)
      (c' : Blockchain String) : ReachableStrictV1 S c →
      Blockchain.addTransactionV1 S c tx = (r, c') → ReachableStrictV1 S c'
  | mine (c : Blockchain String) (fuel : Nat) (txNow blockNow : Int)
      (addr : Option String) (b : Block String) (c' : Blockchain String) :
      ReachableStrictV1 S c →
      Blockchain.minePendingTransactions jsonSigV1 fuel txNow blockNow addr c
        = some (b, c') → b.nonce ≠ 0 → ReachableStrictV1 S c'

/-- A transaction acceptable inside a valid chain or queue: coinbase, or
one that `isValid` (revision V1) accepts without throwing. -/
def txOkV1 (S : Secp) (tx : Transaction String) : Prop :=
  tx.fromAddress = none ∨ Transaction.isValidV1 S tx = .ok true

/-- The inductive invariant for revision V1 ledgers: nonempty chain, every
non-genesis block correctly linked and correctly hashed, and every
transaction in non-genesis blocks and in the pending queue acceptable. -/
def InvV1 (S : Secp) (c : Blockchain String) : Prop :=
  c.chain ≠ [] ∧
  List.Chain' (fun b1 b2 => b2.previousHash = b1.hash) c.chain ∧
  (∀ b ∈ c.chain.tail, b.hash = Block.calculateHash jsonSigV1 b) ∧
  (∀ b ∈ c.chain.tail, ∀ tx ∈ b.transactions, txOkV1 S tx) ∧
  (∀ tx ∈ c.pendingTransactions, txOkV1 S tx)

/-! ## Specification-side balance accounting (for claim C4)

These two definitions follow the SPEC's words ("total credits minus total
debits across all history"), to be compared with the implementation's
`getBalanceOfAddress`. -/

/-- All transactions in all blocks of the chain, in history order. -/
def allChainTxs (c : Blockchain σ) : List (Transaction σ) :=
  c.chain.flatMap (fun b => b.transactions)

/-- Spec-side: the total amount credited to `address` (as recipient). -/
def creditTotal (c : Blockchain σ) (address : Option String) : Int :=
  (((allChainTxs c).filter (fun tx => tx.toAddress = address)).map
    (fun tx => tx.amount)).sum

/-- Spec-side: the total amount debited from `address` (as sender). -/
def debitTotal (c : Blockchain σ) (address : Option String) : Int :=
  (((allChainTxs c).filter (fun tx => tx.fromAddress = address)).map
    (fun tx => tx.amount)).sum

/-- The net effect of one transaction on the balance of `address`. -/
def txContribution (address : Option String) (tx : Transaction σ) : Int :=
  (if tx.toAddress = address then tx.amount else 0) -
    (if tx.fromAddress = address then tx.amount else 0)

/-- The total amount of coinbase (null-sender) transactions in the chain
(for claim C10). -/
def coinbaseTotal (c : Blockchain σ) : Int :=
  (((allChainTxs c).filter (fun tx => tx.fromAddress = none)).map
    (fun tx => tx.amount)).sum

/-! ## Concrete inputs used by witnesses and counterexamples

All timestamps are inputs of the program (`Date.now()` calls); the concrete
values below were chosen offline so that the proof-of-work searches involved
finish within a handful of SHA-256 evaluations, which the kernel can check.
-/

/-- A 32-byte private key (0xab repeated). -/
def demoSK : List Nat := List.replicate 32 171

def demoSKhex : String := toHexString demoSK

/-- Its `toySecp` public key. -/
def demoPub : List Nat := toySecp.publicKeyCreate demoSK

/-- Its wallet address: hex of SHA-256 of the public key bytes. -/
def demoAddr : String := toHexString (sha256 demoPub)

/-- A revision-V1 transaction from that wallet's address. -/
def demoTxV1 : Transaction String := ⟨some demoAddr, some "bob", 5, 1, none⟩

/-- The same transaction signed with the wallet's key (V1 signing). -/
def demoSignedTxV1 : Transaction String :=
  match Transaction.signTransactionV1 toySecp demoSKhex demoTxV1 with
  | .ok t => t
  | .error _ => demoTxV1

/-- A V1 transaction with amount −5 whose sender field is the PUBLIC KEY
hex (not the address); used to show V1 `addTransaction` admits it. -/
def demoNegTxV1 : Transaction String :=
  ⟨some (toHexString demoPub), some "bob", -5, 1, none⟩

/-- That transaction, signed (V1 signing). -/
def demoNegSignedTxV1 : Transaction String :=
  match Transaction.signTransactionV1 toySecp demoSKhex demoNegTxV1 with
  | .ok t => t
  | .error _ => demoNegTxV1

/-- A V2 transaction from the demo wallet's address. -/
def demoTxV2 : Transaction SigRec := ⟨some demoAddr, some "bob", 5, 1, none⟩

/-- The same transaction signed with the wallet's key (V2 signing). -/
def demoSignedTxV2 : Transaction SigRec :=
  match Transaction.signTransactionV2 toySecp demoSKhex demoTxV2 with
  | .ok t => t
  | .error _ => demoTxV2

/-- Mining once on a fresh V1 ledger (genesis time 1, coinbase time 2,
block time 283): the constructor hash misses the target and the fourth
nonce hits three leading zeros. -/
def demoMineV1 : Option (Block String × Blockchain String) :=
  Blockchain.minePendingTransactions jsonSigV1 10 2 283 (some "m") (freshV1 1)

def demoBlockV1 : Block String :=
  match demoMineV1 with
  | some (b, _) => b
  | none => ⟨0, 0, [], "", "", 0⟩

def demoChainV1 : Blockchain String :=
  match demoMineV1 with
  | some (_, c) => c
  | none => freshV1 1

/-- Mining once on a fresh V1 ledger with block time 5496: the hash the
`Block` constructor stores (nonce serialized as `"undefined"`) already
starts with three zeros, so the mining loop exits without recomputing and
the stored hash disagrees with `calculateHash()`. -/
def badMineV1 : Option (Block String × Blockchain String) :=
  Blockchain.minePendingTransactions jsonSigV1 10 2 5496 (some "m") (freshV1 1)

def badChainV1 : Blockchain String :=
  match badMineV1 with
  | some (_, c) => c
  | none => freshV1 1

/-- Mining once on a fresh V2 ledger (genesis time 1, coinbase time 2,
block time 16): the first nonce hits two leading zeros. -/
def demoMineV2 : Option (Block SigRec × Blockchain SigRec) :=
  Blockchain.minePendingTransactions jsonSigV2 10 2 16 (some "m") (freshV2 1)

def demoBlockV2 : Block SigRec :=
  match demoMineV2 with
  | some (b, _) => b
  | none => ⟨0, 0, [], "", "", 0⟩

def demoChainV2 : Blockchain SigRec :=
  match demoMineV2 with
  | some (_, c) => c
  | none => freshV2 1

/-- A block mined at difficulty 1 whose search (from time 133) first meets
the one-zero target at nonce 6 with a hash that begins with TWO zeros. -/
def demoBlock7 : Block String := Block.new jsonSigV1 0 133 [] "p"

def demoMined7 : Block String :=
  match Block.mineBlock jsonSigV1 1 9 demoBlock7 with
  | some b => b
  | none => demoBlock7

/-! ## Abbreviations used to state claim C1 -/

/-- The transaction the claim builds: sender is the wallet's address. -/
def txFromWallet (w : WalletData) (toA : Option String) (amt ts : Int) :
    Transaction SigRec :=
  ⟨some w.address, toA, amt, ts, none⟩

/-- The message the signature covers: the transaction hash as bytes. -/
def msgOf (tx : Transaction SigRec) : List Nat := hexDecode tx.calculateHash

/-- The (signature bytes, recovery id) pair `signTransaction` produces. -/
def signBytesV2 (S : Secp) (skHex : String) (tx : Transaction SigRec) :
    List Nat × Nat :=
  S.ecdsaSign (msgOf tx) (hexDecode skHex)

/-- The signature bytes as they come back out of the stored hex field. -/
def storedSigV2 (S : Secp) (skHex : String) (tx : Transaction SigRec) :
    List Nat :=
  hexDecode (toHexString (signBytesV2 S skHex tx).1)

/-! ## Further concrete inputs -/

/-- The block appended by the freak mining run (`badMineV1`). -/
def badBlockV1 : Block String :=
  match badMineV1 with
  | some (b, _) => b
  | none => ⟨0, 0, [], "", "", 0⟩

/-- A small hand-made ledger: one block holding a signed-style transfer
x→y of 7 and a coinbase paying 3 to x. -/
def demoBalChain : Blockchain String :=
  { chain := [⟨0, 1, [⟨some "x", some "y", 7, 1, none⟩,
      ⟨none, some "x", 3, 2, none⟩], "0", "h", 0⟩],
    difficulty := 3, pendingTransactions := [], miningReward := 100 }

/-- The same ledger with the block's two transactions swapped. -/
def demoBalChain2 : Blockchain String :=
  { chain := [⟨0, 1, [⟨none, some "x", 3, 2, none⟩,
      ⟨some "x", some "y", 7, 1, none⟩], "0", "h", 0⟩],
    difficulty := 3, pendingTransactions := [], miningReward := 100 }

/-! ## Helper lemmas: the mining loop -/

theorem stepBlock_fields (jsonSig : σ → String) (b : Block σ) :
    (stepBlock jsonSig b).index = b.index ∧
    (stepBlock jsonSig b).timestamp = b.timestamp ∧
    (stepBlock jsonSig b).transactions = b.transactions ∧
    (stepBlock jsonSig b).previousHash = b.previousHash := by
  simp [stepBlock]

theorem mineBlock_fields (jsonSig : σ → String) (d fuel : Nat)
    (b b' : Block σ) (h : Block.mineBlock jsonSig d fuel b = some b') :
    b'.index = b.index ∧ b'.timestamp = b.timestamp ∧
    b'.transactions = b.transactions ∧ b'.previousHash = b.previousHash := by
  induction fuel generalizing b with
  | zero =>
    unfold Block.mineBlock at h
    split at h
    · cases h; exact ⟨rfl, rfl, rfl, rfl⟩
    · cases h
  | succ f ih =>
    unfold Block.mineBlock at h
    split at h
    · cases h; exact ⟨rfl, rfl, rfl, rfl⟩
    · have hs := ih (stepBlock jsonSig b) h
      simpa [stepBlock] using hs

theorem mineBlock_pow (jsonSig : σ → String) (d fuel : Nat)
    (b b' : Block σ) (h : Block.mineBlock jsonSig d fuel b = some b') :
    b'.hash.take d = zeroTarget d := by
  induction fuel generalizing b with
  | zero =>
    unfold Block.mineBlock at h
    split at h
    · cases h; assumption
    · cases h
  | succ f ih =>
    unfold Block.mineBlock at h
    split at h
    · cases h; assumption
    · exact ih _ h

theorem mineBlock_hash_consistent (jsonSig : σ → String) (d fuel : Nat)
    (b b' : Block σ) (h : Block.mineBlock jsonSig d fuel b = some b') :
    b' = b ∨ b'.hash = Block.calculateHash jsonSig b' := by
  induction fuel generalizing b with
  | zero =>
    unfold Block.mineBlock at h
    split at h
    · cases h; exact Or.inl rfl
    · cases h
  | succ f ih =>
    unfold Block.mineBlock at h
    split at h
    · cases h; exact Or.inl rfl
    · rcases ih (stepBlock jsonSig b) h with h1 | h1
      · subst h1
        exact Or.inr rfl
      · exact Or.inr h1

theorem take_zero_eq_empty (s : String) : s.take 0 = "" := by
  rw [String.take_eq]
  rfl

theorem mineBlock_zero_difficulty (jsonSig : σ → String) (fuel : Nat)
    (b : Block σ) : Block.mineBlock jsonSig 0 fuel b = some b := by
  cases fuel with
  | zero => simp [Block.mineBlock, zeroTarget, take_zero_eq_empty]
  | succ f => simp [Block.mineBlock, zeroTarget, take_zero_eq_empty]

theorem mineBlock_nonzero_ne (jsonSig : σ → String) (d fuel : Nat)
    (b b' : Block σ) (h : Block.mineBlock jsonSig d fuel b = some b')
    (h0 : b.nonce = 0) (hn : b'.nonce ≠ 0) :
    b'.hash = Block.calculateHash jsonSig b' := by
  rcases mineBlock_hash_consistent jsonSig d fuel b b' h with h1 | h1
  · subst h1; exact absurd h0 hn
  · exact h1

/-! ## Helper lemmas: `minePendingTransactions` unfolding -/

theorem minePending_elim (jsonSig : σ → String) (fuel : Nat)
    (txNow blockNow : Int) (addr : Option String) (c : Blockchain σ)
    (b : Block σ) (c' : Blockchain σ)
    (h : Blockchain.minePendingTransactions jsonSig fuel txNow blockNow addr c
      = some (b, c')) :
    Block.mineBlock jsonSig c.difficulty fuel
      (Block.new jsonSig c.chain.length blockNow
        (c.pendingTransactions ++ [⟨none, addr, c.miningReward, txNow, none⟩])
        c.getLatestBlock.hash) = some b ∧
    c' = { c with chain := c.chain ++ [b], pendingTransactions := [] } := by
  simp only [Blockchain.minePendingTransactions] at h
  split at h
  · cases h
  · next heq =>
    cases h
    exact ⟨heq, rfl⟩

/-! ## Helper lemmas: balance accounting -/

theorem txFold_linear (address : Option String) (l : List (Transaction σ))
    (acc : Int) :
    l.foldl (fun balance trans =>
      let balance := if trans.fromAddress = address then balance - trans.amount
        else balance
      if trans.toAddress = address then balance + trans.amount else balance)
      acc = acc + (l.map (txContribution address)).sum := by
  induction l generalizing acc with
  | nil => simp
  | cons tx rest ih =>
    simp only [List.foldl_cons, List.map_cons, List.sum_cons]
    rw [ih]
    simp only [txContribution]
    by_cases h1 : tx.fromAddress = address <;>
      by_cases h2 : tx.toAddress = address <;> simp [h1, h2] <;> ring

theorem getBalance_eq_blockSums (c : Blockchain σ) (address : Option String) :
    c.getBalanceOfAddress address =
      (c.chain.map (fun b =>
        (b.transactions.map (txContribution address)).sum)).sum := by
  unfold Blockchain.getBalanceOfAddress
  suffices hgen : ∀ (bs : List (Block σ)) (acc : Int),
      bs.foldl (fun balance block =>
        block.transactions.foldl (fun balance trans =>
          let balance := if trans.fromAddress = address then
            balance - trans.amount else balance
          if trans.toAddress = address then balance + trans.amount
          else balance) balance) acc =
      acc + (bs.map (fun b =>
        (b.transactions.map (txContribution address)).sum)).sum by
    simpa using hgen c.chain 0
  intro bs
  induction bs with
  | nil => simp
  | cons b rest ih =>
    intro acc
    simp only [List.foldl_cons, List.map_cons, List.sum_cons]
    rw [txFold_linear, ih]
    ring

theorem getBalance_eq_flatSum (c : Blockchain σ) (address : Option String) :
    c.getBalanceOfAddress address =
      ((allChainTxs c).map (txContribution address)).sum := by
  rw [getBalance_eq_blockSums]
  unfold allChainTxs
  induction c.chain with
  | nil => simp
  | cons b rest ih => simp [ih]

theorem contribution_sum_split (address : Option String)
    (l : List (Transaction σ)) :
    (l.map (txContribution address)).sum =
      ((l.filter (fun tx => tx.toAddress = address)).map
        (fun tx => tx.amount)).sum -
      ((l.filter (fun tx => tx.fromAddress = address)).map
        (fun tx => tx.amount)).sum := by
  induction l with
  | nil => simp
  | cons tx rest ih =>
    simp only [List.map_cons, List.sum_cons, List.filter_cons]
    by_cases h1 : tx.toAddress = address <;>
      by_cases h2 : tx.fromAddress = address <;>
      simp [h1, h2, txContribution, ih] <;> ring

/-! ## Helper lemmas: `addTransaction` -/

theorem addTransactionV1_cases (S : Secp) (c : Blockchain String)
    (tx : Transaction String) (r : Option JsError) (c' : Blockchain String)
    (h : Blockchain.addTransactionV1 S c tx = (r, c')) :
    c' = c ∨
      (c' = { c with pendingTransactions := c.pendingTransactions ++ [tx] } ∧
        Transaction.isValidV1 S tx = .ok true ∧ tx.fromAddress ≠ none) := by
  unfold Blockchain.addTransactionV1 at h
  split at h
  · cases h; exact Or.inl rfl
  · next hfalsy =>
    split at h
    · cases h; exact Or.inl rfl
    · next v hval =>
      have hfrom : tx.fromAddress ≠ none := by
        intro hn
        exact hfalsy (Or.inl (by simp [falsyAddr, hn]))
      split at h
      · cases h; exact Or.inl rfl
      · next hsig =>
        have hv : v = true := by
          by_contra hvf
          exact hsig ⟨by simpa using hvf, hfrom⟩
        split at h
        · cases h; exact Or.inl rfl
        · cases h
          exact Or.inr ⟨rfl, by rw [hval, hv], hfrom⟩

theorem addTransactionV2_cases (S : Secp) (c : Blockchain SigRec)
    (tx : Transaction SigRec) (r : Option JsError) (c' : Blockchain SigRec)
    (h : Blockchain.addTransactionV2 S c tx = (r, c')) :
    c' = c ∨
      (c' = { c with pendingTransactions := c.pendingTransactions ++ [tx] } ∧
        tx.fromAddress ≠ none ∧ 0 < tx.amount) := by
  unfold Blockchain.addTransactionV2 at h
  split at h
  · cases h; exact Or.inl rfl
  · next hfalsy =>
    have hfrom : tx.fromAddress ≠ none := by
      intro hn
      exact hfalsy (Or.inl (by simp [falsyAddr, hn]))
    split at h
    · cases h; exact Or.inl rfl
    · next hamt =>
      have hpos : 0 < tx.amount := by omega
      repeat' split at h
      all_goals cases h
      all_goals try exact Or.inl rfl
      all_goals exact Or.inr ⟨rfl, hfrom, hpos⟩

/-! ## Helper lemmas: small list facts -/

theorem getLastD_cons_cons (a b : α) (t : List α) (d : α) :
    (a :: b :: t).getLastD d = (b :: t).getLastD d := by
  simp [List.getLastD]

theorem chain'_append_singleton (R : α → α → Prop) (l : List α) (b d : α)
    (hc : List.Chain' R l) (hl : l ≠ []) (hR : R (l.getLastD d) b) :
    List.Chain' R (l ++ [b]) := by
  induction l with
  | nil => exact absurd rfl hl
  | cons a t ih =>
    cases t with
    | nil =>
      simp only [List.getLastD] at hR
      simpa [List.chain'_cons] using hR
    | cons a2 t2 =>
      rw [List.chain'_cons] at hc
      refine List.chain'_cons.mpr ⟨hc.1, ?_⟩
      exact ih hc.2 (by simp) (by rwa [getLastD_cons_cons] at hR)

theorem tail_append_singleton (l : List α) (b : α) (hl : l ≠ []) :
    (l ++ [b]).tail = l.tail ++ [b] := by
  cases l with
  | nil => exact absurd rfl hl
  | cons a t => simp

/-! ## Helper lemmas: chain validation under the invariant -/

theorem isValidV1_of_txOk (S : Secp) (tx : Transaction String)
    (h : txOkV1 S tx) : Transaction.isValidV1 S tx = .ok true := by
  rcases h with h | h
  · unfold Transaction.isValidV1
    rw [h]
  · exact h

theorem txCheckLoop_ok (S : Secp) (l : List (Transaction String))
    (h : ∀ tx ∈ l, txOkV1 S tx) :
    txCheckLoop (Transaction.isValidV1 S) l = .ok true := by
  induction l with
  | nil => rfl
  | cons tx rest ih =>
    have htx := isValidV1_of_txOk S tx (h tx (by simp))
    simp only [txCheckLoop, htx, not_true_eq_false, false_and, if_false]
    exact ih (fun t ht => h t (by simp [ht]))

theorem chainCheckLoop_ok (S : Secp) (prev : Block String)
    (rest : List (Block String))
    (hlink : List.Chain' (fun b1 b2 => b2.previousHash = b1.hash)
      (prev :: rest))
    (hhash : ∀ b ∈ rest, b.hash = Block.calculateHash jsonSigV1 b)
    (htx : ∀ b ∈ rest, ∀ tx ∈ b.transactions, txOkV1 S tx) :
    chainCheckLoop jsonSigV1 (Transaction.isValidV1 S) prev rest = .ok true := by
  induction rest generalizing prev with
  | nil => rfl
  | cons b rest2 ih =>
    have hb : b.hash = Block.calculateHash jsonSigV1 b := hhash b (by simp)
    have hpl : b.previousHash = prev.hash :=
      (List.chain'_cons.mp hlink).1
    have hloop := txCheckLoop_ok S b.transactions (htx b (by simp))
    simp only [chainCheckLoop, hb, hpl, ne_eq, not_true_eq_false, if_false,
      hloop, if_true]
    exact ih b (List.chain'_cons.mp hlink).2
      (fun x hx => hhash x (by simp [hx]))
      (fun x hx => htx x (by simp [hx]))

theorem isChainValid_of_inv (S : Secp) (c : Blockchain String)
    (hInv : InvV1 S c) :
    Blockchain.isChainValid jsonSigV1 (Transaction.isValidV1 S) c
      = .ok true := by
  obtain ⟨hne, hlink, hhash, htx, -⟩ := hInv
  unfold Blockchain.isChainValid
  match hcc : c.chain with
  | [] => exact absurd hcc hne
  | g :: rest =>
    rw [hcc] at hlink hhash htx
    exact chainCheckLoop_ok S g rest hlink
      (by simpa using hhash) (by simpa using htx)

/-! ## Helper lemmas: the invariant is preserved -/

theorem inv_fresh (S : Secp) (now : Int) : InvV1 S (freshV1 now) := by
  refine ⟨by simp [freshV1, Blockchain.new], ?_, ?_, ?_, ?_⟩ <;>
    simp [freshV1, Blockchain.new]

theorem inv_add (S : Secp) (c : Blockchain String) (tx : Transaction String)
    (r : Option JsError) (c' : Blockchain String) (hInv : InvV1 S c)
    (h : Blockchain.addTransactionV1 S c tx = (r, c')) : InvV1 S c' := by
  rcases addTransactionV1_cases S c tx r c' h with h1 | ⟨h1, hval, -⟩
  · rwa [h1]
  · obtain ⟨hne, hlink, hhash, htxs, hpend⟩ := hInv
    subst h1
    refine ⟨hne, hlink, hhash, htxs, ?_⟩
    intro t ht
    rcases List.mem_append.mp ht with ht | ht
    · exact hpend t ht
    · have : t = tx := by simpa using ht
      subst this
      exact Or.inr hval

theorem inv_mine (S : Secp) (c : Blockchain String) (fuel : Nat)
    (txNow blockNow : Int) (addr : Option String) (b : Block String)
    (c' : Blockchain String) (hInv : InvV1 S c)
    (h : Blockchain.minePendingTransactions jsonSigV1 fuel txNow blockNow
      addr c = some (b, c')) (hn : b.nonce ≠ 0) : InvV1 S c' := by
  obtain ⟨hmine, hc'⟩ := minePending_elim jsonSigV1 fuel txNow blockNow addr
    c b c' h
  obtain ⟨hne, hlink, hhash, htxs, hpend⟩ := hInv
  have hfields := mineBlock_fields jsonSigV1 c.difficulty fuel _ b hmine
  have hbhash : b.hash = Block.calculateHash jsonSigV1 b :=
    mineBlock_nonzero_ne jsonSigV1 c.difficulty fuel _ b hmine rfl hn
  have hbprev : b.previousHash = c.getLatestBlock.hash := hfields.2.2.2
  have hbtxs : b.transactions =
      c.pendingTransactions ++ [⟨none, addr, c.miningReward, txNow, none⟩] :=
    hfields.2.2.1
  subst hc'
  refine ⟨by simp, ?_, ?_, ?_, by simp⟩
  · exact chain'_append_singleton _ c.chain b ⟨0, 0, [], "", "", 0⟩ hlink hne
      (by rw [hbprev]; rfl)
  · intro x hx
    rw [tail_append_singleton c.chain b hne] at hx
    rcases List.mem_append.mp hx with hx | hx
    · exact hhash x hx
    · have : x = b := by simpa using hx
      subst this
      exact hbhash
  · intro x hx t ht
    rw [tail_append_singleton c.chain b hne] at hx
    rcases List.mem_append.mp hx with hx | hx
    · exact htxs x hx t ht
    · have : x = b := by simpa using hx
      subst this
      rw [hbtxs] at ht
      rcases List.mem_append.mp ht with ht | ht
      · exact hpend t ht
      · have : t = ⟨none, addr, c.miningReward, txNow, none⟩ := by simpa using ht
        subst this
        exact Or.inl rfl

theorem inv_of_reachableStrict (S : Secp) (c : Blockchain String)
    (h : ReachableStrictV1 S c) : InvV1 S c := by
  induction h with
  | fresh now => exact inv_fresh S now
  | add c tx r c' _ hstep ih => exact inv_add S c tx r c' ih hstep
  | mine c fuel txNow blockNow addr b c' _ hstep hn ih =>
    exact inv_mine S c fuel txNow blockNow addr b c' ih hstep hn

/-! ## Further helper lemmas -/

theorem toHexString_ne_empty (b : Nat) (bs : List Nat) :
    toHexString (b :: bs) ≠ "" := by
  simp [toHexString, String.ext_iff]

theorem minePending_post (jsonSig : σ → String) (fuel : Nat)
    (txNow blockNow : Int) (addr : Option String) (c : Blockchain σ)
    (b : Block σ) (c' : Blockchain σ)
    (h : Blockchain.minePendingTransactions jsonSig fuel txNow blockNow addr c
      = some (b, c')) :
    b.transactions = c.pendingTransactions ++
      [⟨none, addr, c.miningReward, txNow, none⟩] ∧
    b.index = c.chain.length ∧
    b.previousHash = c.getLatestBlock.hash ∧
    c'.chain = c.chain ++ [b] ∧
    c'.pendingTransactions = [] := by
  obtain ⟨hmine, hc'⟩ := minePending_elim jsonSig fuel txNow blockNow addr
    c b c' h
  have hfields := mineBlock_fields jsonSig c.difficulty fuel _ b hmine
  exact ⟨hfields.2.2.1, hfields.1, hfields.2.2.2, by rw [hc'], by rw [hc']⟩

/-- Known-answer check tying the SHA-256 embedding to the standard value. -/
theorem sha256hex_abc :
    sha256hex "abc" =
      "ba7816bf8f01cfea414140de5dae2223b00361a396177a9cb410ff61f20015ad" := by
  rfl

/-! ## Claim C8 -/

/-- C8 (code_bug evaluation): a freshly constructed `Block` does have
`nonce = 0`, but its stored hash is the hash of the serialization with the
nonce rendered as `"undefined"` (the constructor computes `this.hash`
BEFORE `this.nonce = 0` runs), so `block.hash == block.calculateHash()` is
FALSE immediately after construction.  Shown here on the concrete input
`new Block(0, 7, [], '0')`. -/
theorem C8_constructed_hash_is_undefined_nonce_hash :
    (Block.new jsonSigV1 0 7 [] "0").nonce = 0 ∧
    (Block.new jsonSigV1 0 7 [] "0").hash = sha256hex "7[]0undefined" ∧
    (Block.new jsonSigV1 0 7 [] "0").hash ≠
      Block.calculateHash jsonSigV1 (Block.new jsonSigV1 0 7 [] "0") := by
  refine ⟨rfl, rfl, ?_⟩
  decide

/-! ## Claim C7 -/

/-- C7 (amended): when `mineBlock(d)` terminates, the stored hash has AT
LEAST `d` leading hex zero characters (the loop only compares the first `d`
characters, so it cannot enforce "exactly"), and at difficulty 0 the loop
exits immediately, returning the block unchanged — no nonce increment. -/
theorem C7_mined_hash_leading_zeros :
    (∀ (σ : Type) (jsonSig : σ → String) (d fuel : Nat) (b b' : Block σ),
      Block.mineBlock jsonSig d fuel b = some b' →
      b'.hash.take d = zeroTarget d) ∧
    (∀ (σ : Type) (jsonSig : σ → String) (fuel : Nat) (b : Block σ),
      Block.mineBlock jsonSig 0 fuel b = some b) :=
  ⟨fun _ jsonSig d fuel b b' h => mineBlock_pow jsonSig d fuel b b' h,
   fun _ jsonSig fuel b => mineBlock_zero_difficulty jsonSig fuel b⟩

/-- C7 witness: the amended theorem applied to the concrete difficulty-1
mining run `demoBlock7 ↦ demoMined7`, and to a difficulty-0 run. -/
theorem C7_witness :
    demoMined7.hash.take 1 = zeroTarget 1 ∧
    Block.mineBlock jsonSigV1 0 5 demoBlock7 = some demoBlock7 :=
  ⟨C7_mined_hash_leading_zeros.1 String jsonSigV1 1 9 demoBlock7 demoMined7
      (by decide),
   C7_mined_hash_leading_zeros.2 String jsonSigV1 5 demoBlock7⟩

/-- C7 counterexample to "exactly d": mining `new Block(0, 133, [], 'p')`
at difficulty 1 terminates (at nonce 6) with a hash that begins with TWO
zero characters, so the mined hash does not have exactly one leading zero.
-/
theorem C7_counterexample :
    Block.mineBlock jsonSigV1 1 9 demoBlock7 = some demoMined7 ∧
    demoMined7.hash.take 2 = "00" := by
  refine ⟨by decide, ?_⟩
  decide

/-! ## Claim C3 -/

/-- C3: whenever `minePendingTransactions(addr)` terminates it appends
exactly one block whose transaction list is the prior queue followed by the
coinbase `Transaction(null, addr, miningReward)`, whose index is the prior
chain length and whose previousHash is the prior tip's stored hash; the
queue is left empty and the appended block is the one returned.  Moreover,
mining once on a fresh ledger (any difficulty; reward 100) to address `A`
gives chain length 2 and `balance(A) = 100`. -/
theorem C3_minePendingTransactions_spec :
    (∀ (σ : Type) (jsonSig : σ → String) (fuel : Nat) (txNow blockNow : Int)
      (addr : Option String) (c : Blockchain σ) (b : Block σ)
      (c' : Blockchain σ),
      Blockchain.minePendingTransactions jsonSig fuel txNow blockNow addr c
        = some (b, c') →
      b.transactions = c.pendingTransactions ++
        [⟨none, addr, c.miningReward, txNow, none⟩] ∧
      b.index = c.chain.length ∧
      b.previousHash = c.getLatestBlock.hash ∧
      c'.chain = c.chain ++ [b] ∧
      c'.pendingTransactions = []) ∧
    (∀ (σ : Type) (jsonSig : σ → String) (d : Nat) (fuel : Nat)
      (t0 txNow blockNow : Int) (A : String) (b : Block σ)
      (c' : Blockchain σ),
      Blockchain.minePendingTransactions jsonSig fuel txNow blockNow (some A)
        (Blockchain.new jsonSig d t0) = some (b, c') →
      c'.chain.length = 2 ∧ c'.getBalanceOfAddress (some A) = 100) := by
  refine ⟨fun σ jsonSig fuel txNow blockNow addr c b c' h =>
    minePending_post jsonSig fuel txNow blockNow addr c b c' h, ?_⟩
  intro σ jsonSig d fuel t0 txNow blockNow A b c' h
  obtain ⟨htxs, -, -, hchain, -⟩ :=
    minePending_post jsonSig fuel txNow blockNow (some A)
      (Blockchain.new jsonSig d t0) b c' h
  constructor
  · rw [hchain]
    simp [Blockchain.new]
  · rw [getBalance_eq_blockSums, hchain]
    have hg : (Blockchain.new jsonSig d t0).chain =
        [createGenesisBlock jsonSig t0] := rfl
    rw [hg]
    simp only [List.map_append, List.sum_append, List.map_cons, List.map_nil,
      List.sum_cons, List.sum_nil]
    rw [htxs]
    simp [createGenesisBlock, Block.new, Blockchain.new, txContribution]

/-- C3 witness: the theorem applied to the concrete mining runs
`demoMineV1` (revision V1, difficulty 3) and `demoMineV2` (revision V2,
difficulty 2). -/
theorem C3_witness :
    (demoBlockV1.transactions = (freshV1 1).pendingTransactions ++
        [⟨none, some "m", (freshV1 1).miningReward, 2, none⟩] ∧
      demoBlockV1.index = (freshV1 1).chain.length ∧
      demoBlockV1.previousHash = (freshV1 1).getLatestBlock.hash ∧
      demoChainV1.chain = (freshV1 1).chain ++ [demoBlockV1] ∧
      demoChainV1.pendingTransactions = []) ∧
    (demoChainV2.chain.length = 2 ∧
      demoChainV2.getBalanceOfAddress (some "m") = 100) :=
  ⟨C3_minePendingTransactions_spec.1 String jsonSigV1 10 2 283 (some "m")
      (freshV1 1) demoBlockV1 demoChainV1 (by decide),
   C3_minePendingTransactions_spec.2 SigRec jsonSigV2 2 10 1 2 16 "m"
      demoBlockV2 demoChainV2 (by decide)⟩

/-! ## Claim C4 -/

/-- C4: `getBalanceOfAddress` equals total credits (amounts received) minus
total debits (amounts sent) over all history; it is invariant under
permuting the transactions inside each block; and an address that appears
in no transaction has balance 0.  (For a string-valued query, a coinbase
transaction — whose sender is `null` — can only ever match as a credit,
never as a debit.)  The statement covers both revisions at once because
`getBalanceOfAddress` is the same code in both, embedded generically. -/
theorem C4_balance_is_credits_minus_debits :
    (∀ (σ : Type) (c : Blockchain σ) (address : Option String),
      c.getBalanceOfAddress address =
        creditTotal c address - debitTotal c address) ∧
    (∀ (σ : Type) (c1 c2 : Blockchain σ) (address : Option String),
      List.Forall₂ (fun b1 b2 => b1.transactions.Perm b2.transactions)
        c1.chain c2.chain →
      c1.getBalanceOfAddress address = c2.getBalanceOfAddress address) ∧
    (∀ (σ : Type) (c : Blockchain σ) (address : Option String),
      (∀ tx ∈ allChainTxs c,
        tx.toAddress ≠ address ∧ tx.fromAddress ≠ address) →
      c.getBalanceOfAddress address = 0) := by
  refine ⟨?_, ?_, ?_⟩
  · intro σ c address
    rw [getBalance_eq_flatSum, contribution_sum_split]
    rfl
  · intro σ c1 c2 address h
    rw [getBalance_eq_blockSums, getBalance_eq_blockSums]
    have haux : ∀ (l1 l2 : List (Block σ)),
        List.Forall₂ (fun b1 b2 => b1.transactions.Perm b2.transactions)
          l1 l2 →
        (l1.map (fun b =>
          (b.transactions.map (txContribution address)).sum)).sum =
        (l2.map (fun b =>
          (b.transactions.map (txContribution address)).sum)).sum := by
      intro l1 l2 hf
      induction hf with
      | nil => rfl
      | cons hab htl ih =>
        simp only [List.map_cons, List.sum_cons, ih]
        rw [List.Perm.sum_eq (hab.map (txContribution address))]
    exact haux c1.chain c2.chain h
  · intro σ c address h
    rw [getBalance_eq_flatSum]
    apply List.sum_eq_zero
    intro x hx
    obtain ⟨tx, htx, rfl⟩ := List.mem_map.mp hx
    obtain ⟨h1, h2⟩ := h tx htx
    simp [txContribution, h1, h2]

/-- C4 witness: the three parts applied to the concrete ledgers
`demoBalChain` / `demoBalChain2` (same block, transactions swapped). -/
theorem C4_witness :
    (demoBalChain.getBalanceOfAddress (some "x") =
      creditTotal demoBalChain (some "x") -
        debitTotal demoBalChain (some "x")) ∧
    (demoBalChain.getBalanceOfAddress (some "x") =
      demoBalChain2.getBalanceOfAddress (some "x")) ∧
    demoBalChain.getBalanceOfAddress (some "zz") = 0 :=
  ⟨C4_balance_is_credits_minus_debits.1 String demoBalChain (some "x"),
   C4_balance_is_credits_minus_debits.2.1 String demoBalChain demoBalChain2
     (some "x")
     (List.Forall₂.cons (List.Perm.swap _ _ _) List.Forall₂.nil),
   C4_balance_is_credits_minus_debits.2.2 String demoBalChain (some "zz")
     (by decide)⟩

/-! ## Claim C10 -/

/-- C10: querying the balance of the coinbase sentinel `null` debits every
coinbase transaction like an ordinary account: over any chain in which no
transaction pays TO `null` (mining always pays to a caller-supplied
address), `getBalanceOfAddress(null)` is the negation of the sum of all
coinbase amounts; and each terminating `minePendingTransactions` call to a
non-null reward address (from a queue of user transactions, which always
carry non-null addresses) lowers `balance(null)` by exactly
`miningReward`. -/
theorem C10_null_balance_negates_coinbase :
    (∀ (σ : Type) (c : Blockchain σ),
      (∀ tx ∈ allChainTxs c, tx.toAddress ≠ none) →
      c.getBalanceOfAddress none = - coinbaseTotal c) ∧
    (∀ (σ : Type) (jsonSig : σ → String) (fuel : Nat) (txNow blockNow : Int)
      (A : String) (c : Blockchain σ) (b : Block σ) (c' : Blockchain σ),
      (∀ tx ∈ c.pendingTransactions,
        tx.fromAddress ≠ none ∧ tx.toAddress ≠ none) →
      Blockchain.minePendingTransactions jsonSig fuel txNow blockNow (some A)
        c = some (b, c') →
      c'.getBalanceOfAddress none =
        c.getBalanceOfAddress none - c.miningReward) := by
  constructor
  · intro σ c h
    rw [getBalance_eq_flatSum, contribution_sum_split]
    have hcred : (allChainTxs c).filter (fun tx => tx.toAddress = none)
        = [] := by
      rw [List.filter_eq_nil_iff]
      intro tx htx
      simpa using h tx htx
    rw [hcred]
    simp [coinbaseTotal, debitTotal]
  · intro σ jsonSig fuel txNow blockNow A c b c' hpend h
    obtain ⟨htxs, -, -, hchain, -⟩ :=
      minePending_post jsonSig fuel txNow blockNow (some A) c b c' h
    rw [getBalance_eq_blockSums, hchain, List.map_append, List.sum_append,
      ← getBalance_eq_blockSums]
    have hb : (b.transactions.map (txContribution none)).sum =
        - c.miningReward := by
      rw [htxs, List.map_append, List.sum_append]
      have h0 : (c.pendingTransactions.map (txContribution none)).sum = 0 := by
        apply List.sum_eq_zero
        intro x hx
        obtain ⟨tx, htx, rfl⟩ := List.mem_map.mp hx
        obtain ⟨h1, h2⟩ := hpend tx htx
        simp [txContribution, h1, h2]
      rw [h0]
      simp [txContribution]
    simp only [List.map_cons, List.map_nil, List.sum_cons, List.sum_nil,
      add_zero]
    rw [hb]
    ring

/-! ## Claim C9 -/

/-- C9: in both revisions, a transaction whose sender is the coinbase
sentinel `null` fails `addTransaction`'s very first (presence) check with
`MissingAddress` and leaves the queue untouched; consequently the
sender-is-null exemption branches further down are unreachable, and a
successful `addTransaction` always has a non-null sender — no coinbase
transaction is ever admitted through it. -/
theorem C9_null_sender_hits_missing_address (S : Secp) :
    (∀ (c : Blockchain String) (tx : Transaction String),
      tx.fromAddress = none →
      Blockchain.addTransactionV1 S c tx = (some .missingAddress, c)) ∧
    (∀ (c : Blockchain SigRec) (tx : Transaction SigRec),
      tx.fromAddress = none →
      Blockchain.addTransactionV2 S c tx = (some .missingAddress, c)) ∧
    (∀ (c : Blockchain String) (tx : Transaction String)
      (c' : Blockchain String),
      Blockchain.addTransactionV1 S c tx = (none, c') →
      tx.fromAddress ≠ none) ∧
    (∀ (c : Blockchain SigRec) (tx : Transaction SigRec)
      (c' : Blockchain SigRec),
      Blockchain.addTransactionV2 S c tx = (none, c') →
      tx.fromAddress ≠ none) := by
  have h1 : ∀ (c : Blockchain String) (tx : Transaction String),
      tx.fromAddress = none →
      Blockchain.addTransactionV1 S c tx = (some .missingAddress, c) := by
    intro c tx h
    unfold Blockchain.addTransactionV1
    simp [falsyAddr, h]
  have h2 : ∀ (c : Blockchain SigRec) (tx : Transaction SigRec),
      tx.fromAddress = none →
      Blockchain.addTransactionV2 S c tx = (some .missingAddress, c) := by
    intro c tx h
    unfold Blockchain.addTransactionV2
    simp [falsyAddr, h]
  refine ⟨h1, h2, ?_, ?_⟩
  · intro c tx c' h hn
    rw [h1 c tx hn] at h
    simp at h
  · intro c tx c' h hn
    rw [h2 c tx hn] at h
    simp at h

/-- C9 witness: the theorem applied to a concrete coinbase-style
transaction on fresh ledgers of both revisions. -/
theorem C9_witness :
    Blockchain.addTransactionV1 toySecp (freshV1 1)
      ⟨none, some "m", 100, 2, none⟩ = (some .missingAddress, freshV1 1) ∧
    Blockchain.addTransactionV2 toySecp (freshV2 1)
      ⟨none, some "m", 100, 2, none⟩ = (some .missingAddress, freshV2 1) :=
  ⟨(C9_null_sender_hits_missing_address toySecp).1 (freshV1 1) _ rfl,
   (C9_null_sender_hits_missing_address toySecp).2.1 (freshV2 1) _ rfl⟩

/-! ## Claim C6 -/

/-- C6 (amended): in revision V2, for a transaction carrying both
addresses, an amount ≤ 0 makes `addTransaction` fail with `InvalidAmount`
and the returned state — in particular the pending queue — is exactly the
input state.  (Revision V1 has no amount check at all; see the
counterexample.) -/
theorem C6_nonpositive_amount_rejected (S : Secp) (c : Blockchain SigRec)
    (tx : Transaction SigRec) (hfrom : falsyAddr tx.fromAddress = false)
    (hto : falsyAddr tx.toAddress = false) (hamt : tx.amount ≤ 0) :
    Blockchain.addTransactionV2 S c tx = (some .invalidAmount, c) := by
  unfold Blockchain.addTransactionV2
  simp [hfrom, hto, hamt]

/-- C6 witness: the amended theorem at the scenario input `amount = -5`. -/
theorem C6_witness :
    Blockchain.addTransactionV2 toySecp (freshV2 1)
      ⟨some "alice", some "bob", -5, 1, none⟩ =
      (some .invalidAmount, freshV2 1) :=
  C6_nonpositive_amount_rejected toySecp (freshV2 1)
    ⟨some "alice", some "bob", -5, 1, none⟩ rfl rfl (by decide)

/-- C6 counterexample: revision V1's `addTransaction` has no amount check,
and it ACCEPTS a properly signed transaction of amount −5 (sender field =
the signer's public-key hex, which V1's `isValid` compares signatures
against): no error is thrown and the queue GAINS the transaction, so the
claimed `InvalidAmount` failure with an unchanged queue does not happen. -/
theorem C6_counterexample :
    demoNegSignedTxV1.amount = -5 ∧
    Blockchain.addTransactionV1 toySecp (freshV1 1) demoNegSignedTxV1 =
      (none, { freshV1 1 with
        pendingTransactions := [demoNegSignedTxV1] }) := by
  refine ⟨rfl, ?_⟩
  decide

/-! ## Claim C5 -/

/-- C5 (amended to revision V2, whose `isValid` the claim describes): for a
transaction with a non-null sender, a missing signature yields `false`
without throwing (`isValid` returns `Bool`, so it cannot propagate an
exception); with a signature present, `isValid()` is `true` exactly when
public-key recovery from (signature, recovery id, hash) succeeds, the
address derived from the recovered key (hex of SHA-256 of the key bytes)
equals the claimed sender, and the signature verifies against the recovered
key and hash — recovery or verification failures yield `false`.  (Revision
V1 instead THROWS on a missing signature; see the counterexample.) -/
theorem C5_isValid_fail_closed (S : Secp) (tx : Transaction SigRec)
    (a : String) (hfrom : tx.fromAddress = some a) :
    (tx.signature = none → Transaction.isValidV2 S tx = false) ∧
    (∀ s : SigRec, tx.signature = some s → s.signature ≠ "" →
      (Transaction.isValidV2 S tx = true ↔
        ∃ pk, S.ecdsaRecover (hexDecode s.signature) s.recovery
            (hexDecode tx.calculateHash) = .ok pk ∧
          toHexString (sha256 pk) = a ∧
          S.ecdsaVerify (hexDecode s.signature)
            (hexDecode tx.calculateHash) pk = .ok true)) := by
  constructor
  · intro hsig
    unfold Transaction.isValidV2
    rw [hfrom, hsig]
  · intro s hs hne
    unfold Transaction.isValidV2
    rw [hfrom, hs]
    simp only [hne, if_false]
    cases hrec : S.ecdsaRecover (hexDecode s.signature) s.recovery
        (hexDecode tx.calculateHash) with
    | error e =>
      dsimp only
      constructor
      · intro hfalse; cases hfalse
      · rintro ⟨pk, hpk, -, -⟩
        cases hpk
    | ok pk =>
      by_cases haddr : toHexString (sha256 pk) = a
      · simp only [haddr, ne_eq, not_true_eq_false, if_false]
        cases hver : S.ecdsaVerify (hexDecode s.signature)
            (hexDecode tx.calculateHash) pk with
        | error e =>
          dsimp only
          constructor
          · intro hfalse; cases hfalse
          · rintro ⟨pk2, hpk2, -, hv2⟩
            cases hpk2
            rw [hver] at hv2
            cases hv2
        | ok b =>
          dsimp only
          constructor
          · intro hb
            exact ⟨pk, rfl, haddr, by rw [hver, hb]⟩
          · rintro ⟨pk2, hpk2, -, hv2⟩
            cases hpk2
            rw [hver] at hv2
            cases hv2
            rfl
      · simp only [haddr, ne_eq, not_false_eq_true, if_true]
        constructor
        · intro hfalse; cases hfalse
        · rintro ⟨pk2, hpk2, haddr2, -⟩
          cases hpk2
          exact absurd haddr2 haddr

/-- C5 witness: the no-signature half of the theorem at a concrete
transaction (non-null sender, signature absent): `isValid` is `false`. -/
theorem C5_witness :
    Transaction.isValidV2 toySecp ⟨some "aa", some "bb", 5, 1, none⟩
      = false :=
  (C5_isValid_fail_closed toySecp ⟨some "aa", some "bb", 5, 1, none⟩
    "aa" rfl).1 rfl

/-- C5 counterexample: revision V1's `isValid` THROWS (`'未找到交易签名'`,
modelled as the `missingSignature` error) on a transaction with a non-null
sender and no signature, instead of returning `false`; it also never
recovers a key or derives an address. -/
theorem C5_counterexample :
    Transaction.isValidV1 toySecp ⟨some "aa", some "bb", 5, 1, none⟩
      = .error .missingSignature := rfl

/-! ## Claim C1 -/

/-- Core of claim C1, for an abstract transaction whose sender is the
address derived from the signer's key (`hfrom`): signing succeeds and the
signed transaction passes V2 validation, given the library laws `hne`,
`hrec`, `hver` at the signing point. -/
theorem signV2_isValidV2 (S : Secp) (skHex : String)
    (tx : Transaction SigRec)
    (hfrom : tx.fromAddress =
      some (toHexString (sha256 (S.publicKeyCreate (hexDecode skHex)))))
    (hsk : skHex ≠ "") (hlen : (hexDecode skHex).length = 32)
    (hpv : S.privateKeyVerify (hexDecode skHex) = true)
    (hne : (signBytesV2 S skHex tx).1 ≠ [])
    (hrec : S.ecdsaRecover (storedSigV2 S skHex tx)
      (signBytesV2 S skHex tx).2 (msgOf tx) =
      .ok (S.publicKeyCreate (hexDecode skHex)))
    (hver : S.ecdsaVerify (storedSigV2 S skHex tx) (msgOf tx)
      (S.publicKeyCreate (hexDecode skHex)) = .ok true) :
    ∃ tx1,
      Transaction.signTransactionV2 S skHex tx = .ok tx1 ∧
      Transaction.isValidV2 S tx1 = true := by
  simp only [storedSigV2, signBytesV2, msgOf] at hne hrec hver
  refine ⟨{ tx with signature := some (SigRec.mk
      (toHexString (S.ecdsaSign (hexDecode tx.calculateHash)
        (hexDecode skHex)).1)
      ((S.ecdsaSign (hexDecode tx.calculateHash) (hexDecode skHex)).2)) },
    ?_, ?_⟩
  · unfold Transaction.signTransactionV2
    rw [if_neg hsk]
    dsimp only
    rw [if_neg (fun h => h hlen), if_neg (fun h => h hpv)]
  · unfold Transaction.isValidV2
    dsimp only
    rw [hfrom]
    dsimp only
    have hcalc : Transaction.calculateHash
        ({ fromAddress := some (toHexString (sha256 (S.publicKeyCreate (hexDecode skHex)))),
           toAddress := tx.toAddress, amount := tx.amount,
           timestamp := tx.timestamp,
           signature := some (SigRec.mk
             (toHexString (S.ecdsaSign (hexDecode tx.calculateHash) (hexDecode skHex)).1)
             ((S.ecdsaSign (hexDecode tx.calculateHash) (hexDecode skHex)).2)) } :
          Transaction SigRec) = Transaction.calculateHash tx := by
      rw [← hfrom]
      rfl
    have hnestr : toHexString (S.ecdsaSign (hexDecode tx.calculateHash)
        (hexDecode skHex)).1 ≠ "" := by
      cases hs1 : (S.ecdsaSign (hexDecode tx.calculateHash)
          (hexDecode skHex)).1 with
      | nil => exact absurd hs1 hne
      | cons b bs => exact toHexString_ne_empty b bs
    rw [if_neg hnestr, hcalc, hrec]
    dsimp only
    rw [if_neg (fun h => h rfl), hver]

/-- C1 (amended to revision V2; revision V1 refutes the round trip — see
the counterexample): for every wallet produced by `fromPrivateKey` (or
`generate`, which derives the public key and address identically) and
every recipient, amount and timestamp, the transaction with sender = the
wallet's address, signed via `signTransaction(privateKey)`, satisfies
`isValid() = true`.  The hypotheses `hne`/`hrec`/`hver` state the secp256k1
library's guarantees for the correctly produced signature at this exact
signing point: nonempty signature bytes, recovery returns the signer's
public key, and verification against that key succeeds. -/
theorem C1_sign_then_verify (S : Secp) (skHex : String) (w : WalletData)
    (hw : Wallet.fromPrivateKey S skHex = .ok w) (toA : Option String)
    (amt ts : Int)
    (hne : (signBytesV2 S skHex (txFromWallet w toA amt ts)).1 ≠ [])
    (hrec : S.ecdsaRecover (storedSigV2 S skHex (txFromWallet w toA amt ts))
      (signBytesV2 S skHex (txFromWallet w toA amt ts)).2
      (msgOf (txFromWallet w toA amt ts)) =
      .ok (S.publicKeyCreate (hexDecode skHex)))
    (hver : S.ecdsaVerify (storedSigV2 S skHex (txFromWallet w toA amt ts))
      (msgOf (txFromWallet w toA amt ts))
      (S.publicKeyCreate (hexDecode skHex)) = .ok true) :
    ∃ tx1,
      Transaction.signTransactionV2 S skHex (txFromWallet w toA amt ts)
        = .ok tx1 ∧
      Transaction.isValidV2 S tx1 = true := by
  simp only [Wallet.fromPrivateKey] at hw
  split at hw
  · cases hw
  · next hlen' =>
    split at hw
    · cases hw
    · next hpv' =>
      cases hw
      have hlen : (hexDecode skHex).length = 32 := not_ne_iff.mp hlen'
      have hpv : S.privateKeyVerify (hexDecode skHex) = true :=
        not_not.mp hpv'
      have hsk : skHex ≠ "" := by
        intro h0
        rw [h0] at hlen
        simp [hexDecode, hexPairs] at hlen
      exact signV2_isValidV2 S skHex _ rfl hsk hlen hpv hne hrec hver

/-- C1 witness: the theorem applied to the concrete toy wallet
(`demoSKhex` / `demoAddr`), recipient "bob", amount 5, timestamp 1. -/
theorem C1_witness :
    ∃ tx1,
      Transaction.signTransactionV2 toySecp demoSKhex
        (txFromWallet ⟨demoSKhex, toHexString demoPub, demoAddr⟩
          (some "bob") 5 1) = .ok tx1 ∧
      Transaction.isValidV2 toySecp tx1 = true :=
  C1_sign_then_verify toySecp demoSKhex
    ⟨demoSKhex, toHexString demoPub, demoAddr⟩ (by decide) (some "bob") 5 1
    (by decide) (by decide) (by decide)

/-- C1 counterexample: on revision V1, the same wallet-signed transaction
FAILS validation — `isValid` passes the sender ADDRESS bytes (the SHA-256
of the public key, not the public key itself) to `ecdsaVerify`, so the
sign-then-verify round trip claimed for the program is false there: it
returns `.ok false` instead of true. -/
theorem C1_counterexample :
    Wallet.fromPrivateKey toySecp demoSKhex =
      .ok ⟨demoSKhex, toHexString demoPub, demoAddr⟩ ∧
    demoSignedTxV1.fromAddress = some demoAddr ∧
    demoSignedTxV1.signature ≠ none ∧
    Transaction.isValidV1 toySecp demoSignedTxV1 = .ok false := by
  refine ⟨by decide, by decide, by decide, by decide⟩

/-! ## Claim C2 -/

/-- Membership of a successor-position element in the tail. -/
theorem get_succ_mem_tail (l : List α) (i : Nat) (hi : i + 1 < l.length) :
    l.get ⟨i + 1, hi⟩ ∈ l.tail := by
  cases l with
  | nil => simp at hi
  | cons a t =>
    exact List.get_mem t i (by simpa using Nat.lt_of_succ_lt_succ hi)

/-- C2 (amended): every state reachable from a fresh revision-V1 ledger by
`addTransaction` / `minePendingTransactions` — with each mining step
performing at least one nonce increment, i.e. the freshly constructed
block's (undefined-nonce) hash did not already meet the target — satisfies
`isChainValid() = .ok true`, and for every i > 0 the stored linkage and
hash equalities hold.  (Without the increment proviso the claim is false:
see the counterexample, where the constructor-time hash of the new block
accidentally starts with `difficulty` zeros.) -/
theorem C2_reachable_chain_valid (S : Secp) (c : Blockchain String)
    (h : ReachableStrictV1 S c) :
    Blockchain.isChainValid jsonSigV1 (Transaction.isValidV1 S) c
      = .ok true ∧
    ∀ (i : Nat) (hi : i + 1 < c.chain.length),
      (c.chain.get ⟨i + 1, hi⟩).previousHash =
        (c.chain.get ⟨i, Nat.lt_of_succ_lt hi⟩).hash ∧
      (c.chain.get ⟨i + 1, hi⟩).hash =
        Block.calculateHash jsonSigV1 (c.chain.get ⟨i + 1, hi⟩) := by
  have hInv := inv_of_reachableStrict S c h
  refine ⟨isChainValid_of_inv S c hInv, ?_⟩
  obtain ⟨hne, hlink, hhash, -, -⟩ := hInv
  intro i hi
  constructor
  · exact List.chain'_iff_get.mp hlink i (by omega)
  · exact hhash _ (get_succ_mem_tail c.chain i hi)

/-- C2 witness: the theorem applied to the concrete strict mining trace
`fresh (t0 = 1) → demoChainV1` (the mined block needed 4 nonce
increments). -/
theorem C2_witness :
    Blockchain.isChainValid jsonSigV1 (Transaction.isValidV1 toySecp)
      demoChainV1 = .ok true :=
  (C2_reachable_chain_valid toySecp demoChainV1
    (ReachableStrictV1.mine (freshV1 1) 10 2 283 (some "m") demoBlockV1
      demoChainV1 (ReachableStrictV1.fresh 1) (by decide) (by decide))).1

/-- C2 counterexample: the state reached from a fresh V1 ledger by the
single call `minePendingTransactions("m")` with `Date.now()` values 2 (the
coinbase transaction) and 5496 (the block) — entirely ordinary inputs — has
`isChainValid() = .ok false`: the block's constructor-time hash (nonce
serialized as `"undefined"`) already begins with three zeros, the mining
loop therefore exits without recomputing anything, and the stored hash
disagrees with `calculateHash()`.  So not every reachable state validates,
and the i = 1 stored-hash equality of the claim fails as well. -/
theorem C2_counterexample :
    ReachableV1 toySecp badChainV1 ∧
    Blockchain.isChainValid jsonSigV1 (Transaction.isValidV1 toySecp)
      badChainV1 = .ok false ∧
    badBlockV1.hash ≠ Block.calculateHash jsonSigV1 badBlockV1 ∧
    badChainV1.chain = (freshV1 1).chain ++ [badBlockV1] :=
  ⟨ReachableV1.mine (freshV1 1) 10 2 5496 (some "m") badBlockV1 badChainV1
      (ReachableV1.fresh 1) (by decide),
   by decide, by decide, by decide⟩

/-- C10 witness: part one at the hand-made ledger `demoBalChain` (one
coinbase of 3), part two at the concrete V2 mining run. -/
theorem C10_witness :
    demoBalChain.getBalanceOfAddress none = - coinbaseTotal demoBalChain ∧
    demoChainV2.getBalanceOfAddress none =
      (freshV2 1).getBalanceOfAddress none - (freshV2 1).miningReward :=
  ⟨C10_null_balance_negates_coinbase.1 String demoBalChain (by decide),
   C10_null_balance_negates_coinbase.2 SigRec jsonSigV2 10 2 16 "m"
     (freshV2 1) demoBlockV2 demoChainV2 (by decide) (by decide)⟩
